import Mathlib

/-!
Verification of the interface-description synthesis engine found in
`s_update_interface_desc.py` (functions `script_main` lines 146-193,
`extract_cdp_data` lines 235-265, `add_port_channels` lines 268-289).

Python dictionaries are embedded as insertion-ordered association lists
with unique keys; Python exceptions (IndexError, KeyError, NameError /
UnboundLocalError) are embedded via `Except PyErr`.  The helper module
`securecrt_tools.utilities` (`long_int_name`, `short_int_name`,
`human_sort_key`, `extract_system_name`) is not part of the sources, so
those helpers are modelled from the specification; every definition
modelled that way says so in its doc comment.
-/

/-- Python runtime exceptions that the embedded code can raise.
`invalidRecordError` is the exception class named by the specification
(section 7); the source defines no such class and never raises it, the
constructor exists only so that statements about it can be written. -/
inductive PyErr where
  | indexError
  | keyError
  | nameError
  | invalidRecordError
deriving DecidableEq, Repr

/-- Python `list.__getitem__` with a non-negative index: out-of-range
access raises IndexError. -/
def pyGet (row : List String) (i : Nat) : Except PyErr String :=
  match row.get? i with
  | some s => .ok s
  | none => .error .indexError

/-- Lookup in an insertion-ordered association list (Python `dict[k]`
as an Option). -/
def dlookup {α : Type} : List (String × α) → String → Option α
  | [], _ => none
  | (k', v) :: rest, k => if k' = k then some v else dlookup rest k

/-- Python `dict[k] = v`: replace the binding in place if the key is
present, otherwise append it (insertion order preserved). -/
def dinsert {α : Type} : List (String × α) → String → α → List (String × α)
  | [], k, v => [(k, v)]
  | (k', v') :: rest, k, v =>
      if k' = k then (k, v) :: rest else (k', v') :: dinsert rest k v

/-- Python `dict.pop(k, None)`: remove the binding for `k` if present. -/
def dpop {α : Type} : List (String × α) → String → List (String × α)
  | [], _ => []
  | (k', v') :: rest, k => if k' = k then rest else (k', v') :: dpop rest k

/-- Python `dict.keys()` in insertion order. -/
def dkeys {α : Type} (d : List (String × α)) : List String := d.map (·.1)

/-- The neighbor map built by `extract_cdp_data` and extended by
`add_port_channels`: interface name to a list of strings (a two-element
list models the `(system_name, remote_intf)` tuple; merged port-channel
entries are genuine lists). -/
abbrev Dict := List (String × List String)

/-- Boolean prefix test on character lists. -/
def isPreOf : List Char → List Char → Bool
  | [], _ => true
  | _ :: _, [] => false
  | a :: as, b :: bs => a == b && isPreOf as bs

/-- Boolean infix (substring) test on character lists. -/
def isInfixOfL (n : List Char) : List Char → Bool
  | [] => isPreOf n []
  | c :: cs => isPreOf n (c :: cs) || isInfixOfL n cs

/-- Characters of a string, lower-cased (Python `str.lower`). -/
def lcData (s : String) : List Char := s.data.map Char.toLower

/-- Python `needle in hay` for strings. -/
def strContains (hay needle : String) : Bool := isInfixOfL needle.data hay.data

/-- One alternating chunk of a natural-sort key: a run of non-digit
characters or the numeric value of a run of digits. -/
inductive Chunk where
  | str : List Char → Chunk
  | num : Nat → Chunk
deriving DecidableEq, Repr

/-- Numeric value of a run of decimal digit characters. -/
def digitsToNat (l : List Char) : Nat :=
  l.foldl (fun n c => 10 * n + (c.toNat - 48)) 0

/-- Fuel-driven splitter of a character list into maximal runs of
digits / non-digits; the fuel is always instantiated with the list
length, which suffices since every step consumes at least one
character. -/
def chunksOfF : Nat → List Char → List Chunk
  | _, [] => []
  | 0, _ :: _ => []
  | fuel + 1, c :: cs =>
      let run := cs.takeWhile (fun x => x.isDigit == c.isDigit)
      let rest := cs.dropWhile (fun x => x.isDigit == c.isDigit)
      (if c.isDigit then Chunk.num (digitsToNat (c :: run)) else Chunk.str (c :: run))
        :: chunksOfF fuel rest

/-- Maximal digit / non-digit runs of a character list. -/
def chunksOf (l : List Char) : List Chunk := chunksOfF l.length l

/-- Modelled from the spec: `utilities.human_sort_key` is absent from
the sources; section 4.3 specifies natural order with numeric substrings
compared numerically ("Eth1/2" precedes "Eth1/10"). The key is the list
of alternating text / numeric chunks of the lower-cased name. -/
def human_sort_key (s : String) : List Chunk := chunksOf (lcData s)

/-- Ordering on character lists by character code. -/
def charsCmp : List Char → List Char → Ordering
  | [], [] => .eq
  | [], _ :: _ => .lt
  | _ :: _, [] => .gt
  | a :: as, b :: bs =>
      match compare a.toNat b.toNat with
      | .eq => charsCmp as bs
      | o => o

/-- Ordering on single chunks: numbers numerically, text by character
code, a number before any text. -/
def chunkCmp : Chunk → Chunk → Ordering
  | .num a, .num b => compare a b
  | .str a, .str b => charsCmp a b
  | .num _, .str _ => .lt
  | .str _, .num _ => .gt

/-- Lexicographic ordering on chunk lists. -/
def chunksCmp : List Chunk → List Chunk → Ordering
  | [], [] => .eq
  | [], _ :: _ => .lt
  | _ :: _, [] => .gt
  | a :: as, b :: bs =>
      match chunkCmp a b with
      | .eq => chunksCmp as bs
      | o => o

/-- Natural (human) order on strings via `human_sort_key`. -/
def naturalLe (a b : String) : Bool :=
  match chunksCmp (human_sort_key a) (human_sort_key b) with
  | .gt => false
  | _ => true

/-- Stable insertion of a later element into an already built prefix:
the new element goes after every element that is `naturalLe` it. -/
def insertNat : List String → String → List String
  | [], x => [x]
  | y :: ys, x => if naturalLe y x then y :: insertNat ys x else x :: y :: ys

/-- Stable natural sort (Python `sorted(_, key=utilities.human_sort_key)`,
with `human_sort_key` modelled from the spec). -/
def natSort (l : List String) : List String := l.foldl insertNat []

/-- Leading run of letters and hyphens of an interface name, plus the
remainder. -/
def nameAlpha (s : String) : String × String :=
  (⟨s.data.takeWhile (fun c => c.isAlpha || c == '-')⟩,
   ⟨s.data.dropWhile (fun c => c.isAlpha || c == '-')⟩)

/-- Modelled from the spec: the canonical long interface-name forms of
the short/long alias table (section 3, `utilities.long_int_name` is
absent from the sources). -/
def longNames : List String :=
  ["TenGigabitEthernet", "GigabitEthernet", "FastEthernet", "Ethernet",
   "port-channel", "Loopback", "Vlan", "mgmt"]

/-- Modelled from the spec: `utilities.long_int_name` is absent from the
sources; section 3 specifies canonicalization to the long form through a
short/long alias table, matching the leading alphabetic part of the name
case-insensitively. -/
def long_int_name (int_name : String) : String :=
  let (a, rest) := nameAlpha int_name
  if a.data.isEmpty then int_name
  else
    match longNames.find? (fun ln => isPreOf (lcData a) (lcData ln)) with
    | some ln => ln ++ rest
    | none => int_name

/-- Modelled from the spec: the long/short abbreviation pairs used by
`short_int_name` (section 4.3 gives "GigabitEthernet1/0/1" to "Gi1/0/1"). -/
def shortNames : List (String × String) :=
  [("TenGigabitEthernet", "Te"), ("GigabitEthernet", "Gi"),
   ("FastEthernet", "Fa"), ("Ethernet", "Eth"), ("port-channel", "Po"),
   ("Loopback", "Lo"), ("Vlan", "Vl"), ("mgmt", "mgmt")]

/-- Modelled from the spec: `utilities.short_int_name` is absent from
the sources; section 4.3 specifies abbreviation of a long interface name
via a fixed prefix table. -/
def short_int_name (int_name : String) : String :=
  let (a, rest) := nameAlpha int_name
  match shortNames.find? (fun p => lcData p.1 == lcData a) with
  | some p => p.2 ++ rest
  | none => int_name

/-- Boolean suffix test on character lists. -/
def endsWithL (suf l : List Char) : Bool := isPreOf suf.reverse l.reverse

/-- Longest string of a list, or none. -/
def pickLongest : List String → Option String
  | [] => none
  | s :: rest =>
      match pickLongest rest with
      | none => some s
      | some t => if t.data.length > s.data.length then some t else some s

/-- Modelled from the spec: `utilities.extract_system_name` is absent
from the sources; section 4.1 specifies deriving a system name from a
device id by stripping the longest matching domain suffix of the strip
list (case-insensitively); with no matching suffix the device id is
used verbatim. -/
def extract_system_name (device_id : String) (strip_list : List String) : String :=
  let lc := lcData device_id
  match pickLongest (strip_list.filter (fun d => endsWithL (lcData ("." ++ d)) lc)) with
  | some d => ⟨device_id.data.take (device_id.data.length - (d.data.length + 1))⟩
  | none => device_id

/-- Source line 161: `"port-channel" in interface.lower()`. -/
def isPC (interface : String) : Bool :=
  strContains ⟨lcData interface⟩ "port-channel"

/-- Running state of the `extract_cdp_data` loop (source lines 245-246):
the map under construction and the set of already-seen local
interfaces. -/
structure CdpState where
  cdp_data : Dict
  found_intfs : List String
deriving DecidableEq, Repr

/-- One iteration of the `extract_cdp_data` loop (source lines 249-263):
read the four fields (IndexError on a short row), derive the system name
from the device id when empty, then either record the first association
for the local interface or — for an already-seen interface — execute
`cdp_data.pop(system_name, None)` exactly as the source does (note: the
source pops the system name, not the local interface). -/
def cdpStep (st : CdpState) (entry : List String) : Except PyErr CdpState := do
  let local_intf := long_int_name (← pyGet entry 0)
  let device_id ← pyGet entry 1
  let system_name0 ← pyGet entry 2
  let remote_intf := long_int_name (← pyGet entry 3)
  let system_name := if system_name0 = "" then extract_system_name device_id [] else system_name0
  if local_intf ∈ st.found_intfs then
    pure { st with cdp_data := dpop st.cdp_data system_name }
  else
    pure { cdp_data := dinsert st.cdp_data local_intf [system_name, remote_intf],
           found_intfs := local_intf :: st.found_intfs }

/-- Source lines 235-265: build the per-local-interface neighbor map
from the raw CDP table, skipping the header row. -/
def extract_cdp_data (cdp_table : List (List String)) : Except PyErr Dict := do
  let st ← (cdp_table.drop 1).foldlM cdpStep ⟨[], []⟩
  pure st.cdp_data

/-- One parsed port-channel row: the source uses columns 0 (name) and 4
(member interface list) of the TextFSM row; the unused columns are
omitted. -/
structure PcRecord where
  po : String
  members : List String
deriving DecidableEq, Repr

/-- Source lines 284-287: collect the member interfaces' system names
(first element of the map entry; IndexError on an empty entry, matching
`desc_data[long_name][0]`), ignoring members absent from the map.  The
Python `set` is modelled as an insertion-order deduplicated list. -/
def collectStep (d : Dict) (ns : List String) (intf : String) :
    Except PyErr (List String) :=
  match dlookup d (long_int_name intf) with
  | some [] => .error .indexError
  | some (s :: _) => pure (if s ∈ ns then ns else ns ++ [s])
  | none => pure ns

/-- Source lines 281-287 as a fold of `collectStep` over the member
list, starting from the empty set. -/
def collectNeighbors (d : Dict) (members : List String) : Except PyErr (List String) :=
  members.foldlM (collectStep d) []

/-- Source lines 278-289, loop body: one port-channel record merged into
the map; the entry is written only when the collected set is
non-empty. -/
def addPcStep (d : Dict) (entry : PcRecord) : Except PyErr Dict := do
  let neighbor_set ← collectNeighbors d entry.members
  pure (if neighbor_set.length > 0 then dinsert d (long_int_name entry.po) neighbor_set else d)

/-- Source lines 268-289: merge every port-channel record into the
neighbor map. -/
def add_port_channels (desc_data : Dict) (pc_data : List PcRecord) : Except PyErr Dict :=
  pc_data.foldlM addPcStep desc_data

/-- Existing-description lookup (source lines 154-158: `try` /
`except KeyError` with an empty-string fallback). -/
def exLookup (exd : List (String × String)) (k : String) : String :=
  (dlookup exd k).getD ""

/-- Running state of the command-generation loop of `script_main`
(source lines 146-147 and the Python local `new_desc`, which is unbound
before its first assignment and keeps its value across iterations). -/
structure GenState where
  new_desc : Option String
  cfg : List String
  rb : List String
deriving DecidableEq, Repr

/-- One plan entry: the interface, the description the loop is about to
set, and the existing description it would roll back to. -/
structure PlanEntry where
  intf : String
  newDesc : String
  oldDesc : String
deriving DecidableEq, Repr

/-- The two ChangeSet lines of one plan entry (source lines 172-173 and
187-188). -/
def chgBlock (e : PlanEntry) : List String :=
  ["interface " ++ e.intf, " description " ++ e.newDesc]

/-- The two RollbackSet lines of one plan entry (source lines 174-178
and 189-193). -/
def rbBlock (e : PlanEntry) : List String :=
  ["interface " ++ e.intf,
   if e.oldDesc = "" then " no description" else " description " ++ e.oldDesc]

/-- Source lines 170-178 (and the identical lines 185-193): append the
configuration and rollback commands when the new description differs
from the existing one; in either case the Python local `new_desc` now
holds the computed value. -/
def emit (st : GenState) (interface existing_desc new_desc : String) : GenState :=
  if new_desc ≠ existing_desc then
    ⟨some new_desc,
     st.cfg ++ chgBlock ⟨interface, new_desc, existing_desc⟩,
     st.rb ++ rbBlock ⟨interface, new_desc, existing_desc⟩⟩
  else
    ⟨some new_desc, st.cfg, st.rb⟩

/-- Source lines 163-169 in the port-channel branch: the value the
Python local `new_desc` holds after the two `if` statements — assigned
for exactly 1 or exactly 2 neighbors, otherwise whatever it held before
(`none` models the still-unbound local). -/
def pcDesc (st : GenState) (neigh_list : List String) : Option String :=
  let nd1 : Option String :=
    if neigh_list.length = 1 then neigh_list.head? else st.new_desc
  if neigh_list.length = 2 then
    some ("vPC: " ++ (natSort neigh_list).headD "" ++ ", " ++
          (natSort neigh_list).getD 1 "")
  else nd1

/-- One iteration of the command-generation loop (source lines 153-193).
The interface's map entry is read as in the source (lines 162, 182-183);
in the port-channel branch `new_desc` is only assigned for 1 or 2
neighbors, so reading it at line 171 uses the previous iteration's value
and raises UnboundLocalError (modelled as `nameError`) when no previous
iteration assigned it. -/
def genStep (d : Dict) (exd : List (String × String)) (st : GenState)
    (interface : String) : Except PyErr GenState :=
  match dlookup d interface with
  | none => .error .keyError
  | some neigh_list =>
    if isPC interface then
      match pcDesc st neigh_list with
      | none => .error .nameError
      | some new_desc => .ok (emit st interface (exLookup exd interface) new_desc)
    else
      match neigh_list with
      | [] => .error .indexError
      | [_] => .error .indexError
      | remote_host :: remote_long :: _ =>
          .ok (emit st interface (exLookup exd interface)
                 (remote_host ++ " " ++ short_int_name remote_long))

/-- Source lines 146-193: generate the configuration command list and
the rollback command list, visiting the interfaces in natural-sorted
order (line 150). -/
def genCommands (d : Dict) (exd : List (String × String)) :
    Except PyErr (List String × List String) := do
  let st ← (natSort (dkeys d)).foldlM (genStep d exd) ⟨none, [], []⟩
  pure (st.cfg, st.rb)

/-- Source lines 131-193: the reconciliation pipeline from the parsed
CDP table to the emitted command lists (normalize, merge port-channels,
synthesize). -/
def pipeline (cdp_table : List (List String)) (pc_data : List PcRecord)
    (exd : List (String × String)) : Except PyErr (List String × List String) := do
  let description_data ← extract_cdp_data cdp_table
  let description_data ← add_port_channels description_data pc_data
  genCommands description_data exd

/-- Update one interface's description in a total description table. -/
def setDesc (tbl : String → String) (k v : String) : String → String :=
  fun k' => if k' = k then v else tbl k'

/-- Leading-prefix match on strings, returning the remainder. -/
def matchPre (pre s : String) : Option String :=
  if isPreOf pre.data s.data then some ⟨s.data.drop pre.data.length⟩ else none

/-- Modelled from the spec: the claim's reading of one emitted command
line against a description table — an enter-interface line selects the
interface, " no description" clears the selected interface's
description, " description X" sets it to X (the source only generates
these lines; their device semantics is taken from the claim). -/
def applyLine (ctx : Option String) (tbl : String → String) (line : String) :
    Option String × (String → String) :=
  match matchPre "interface " line with
  | some intf => (some intf, tbl)
  | none =>
    match ctx with
    | none => (ctx, tbl)
    | some intf =>
      if line = " no description" then (ctx, setDesc tbl intf "")
      else
        match matchPre " description " line with
        | some d => (ctx, setDesc tbl intf d)
        | none => (ctx, tbl)

/-- Apply a command list to a description table, threading the selected
interface. -/
def applyCmdsAux : Option String → (String → String) → List String → (String → String)
  | _, tbl, [] => tbl
  | ctx, tbl, l :: ls =>
      let p := applyLine ctx tbl l
      applyCmdsAux p.1 p.2 ls

/-- Apply a command list to a description table. -/
def applyCmds (tbl : String → String) (cmds : List String) : String → String :=
  applyCmdsAux none tbl cmds

/-- Concatenation of the per-entry line blocks of a plan. -/
def blocksOf (f : PlanEntry → List String) : List PlanEntry → List String
  | [] => []
  | e :: p => f e ++ blocksOf f p

/-- Sequential forward application of a plan's new descriptions. -/
def chgAll (tbl : String → String) : List PlanEntry → (String → String)
  | [] => tbl
  | e :: p => chgAll (setDesc tbl e.intf e.newDesc) p

/-- Sequential application of a plan's rollback descriptions. -/
def rbAll (tbl : String → String) : List PlanEntry → (String → String)
  | [] => tbl
  | e :: p => rbAll (setDesc tbl e.intf e.oldDesc) p

theorem emit_new_desc (st : GenState) (i ex nd : String) :
    (emit st i ex nd).new_desc = some nd := by
  unfold emit; split <;> rfl

theorem natSort_pair (a b : String) :
    natSort [a, b] = if naturalLe a b then [a, b] else [b, a] := by
  simp only [natSort, List.foldl, insertNat]

theorem pcDesc_two (st : GenState) (a b : String) :
    pcDesc st [a, b] = some (if naturalLe a b then "vPC: " ++ a ++ ", " ++ b
                             else "vPC: " ++ b ++ ", " ++ a) := by
  simp only [pcDesc, List.length_cons, List.length_nil]
  norm_num
  rw [natSort_pair]
  by_cases hle : naturalLe a b = true
  · simp [hle]
  · simp [hle]

theorem pcDesc_one (st : GenState) (a : String) :
    pcDesc st [a] = some a := by
  simp [pcDesc]

/-- C6: on an aggregate interface, exactly two neighbors produce the
vPC description with the two names in natural order, and exactly one
neighbor produces that neighbor's name alone (source lines 161-169). -/
theorem pc_description_vpc (d : Dict) (exd : List (String × String)) (st : GenState)
    (i a b : String) (hpc : isPC i = true) :
    (dlookup d i = some [a, b] →
      (genStep d exd st i).map (fun s => s.new_desc) =
        .ok (some (if naturalLe a b then "vPC: " ++ a ++ ", " ++ b
                   else "vPC: " ++ b ++ ", " ++ a))) ∧
    (dlookup d i = some [a] →
      (genStep d exd st i).map (fun s => s.new_desc) = .ok (some a)) := by
  constructor
  · intro h
    simp [genStep, h, hpc, pcDesc_two, Except.map, emit_new_desc]
  · intro h
    simp [genStep, h, hpc, pcDesc_one, Except.map, emit_new_desc]

/-- C6 witness: a concrete aggregate with neighbors SW-B, SW-A yields
"vPC: SW-A, SW-B". -/
theorem pc_description_vpc_witness :
    isPC "port-channel1" = true ∧
    (genStep [("port-channel1", ["SW-B", "SW-A"])] [] ⟨none, [], []⟩
        "port-channel1").map (fun s => s.new_desc) =
      .ok (some (if naturalLe "SW-B" "SW-A"
                 then "vPC: " ++ "SW-B" ++ ", " ++ "SW-A"
                 else "vPC: " ++ "SW-A" ++ ", " ++ "SW-B")) :=
  ⟨by decide,
   (pc_description_vpc [("port-channel1", ["SW-B", "SW-A"])] [] ⟨none, [], []⟩
      "port-channel1" "SW-B" "SW-A" (by decide)).1 (by decide)⟩

/-- C1: on the spec's own duplicate-collapse input (two raw records for
local interface "mgmt0" with different system names), the code does NOT
drop the "mgmt0" association: line 260 pops the system name, not the
local interface, so the first record's association survives. -/
theorem duplicate_mgmt0_kept :
    extract_cdp_data
        [["Local Intrfce", "Device ID", "System Name", "Port ID"],
         ["mgmt0", "dev1", "SYS-A", "Eth1"],
         ["mgmt0", "dev2", "SYS-B", "Eth2"]] =
      .ok [("mgmt0", ["SYS-A", "Ethernet1"])] := by rfl

/-- C2: a run whose first natural-sorted interface is an aggregate with
three distinct neighbors aborts with UnboundLocalError (line 171 reads
`new_desc`, which no branch of lines 163-169 assigned) instead of
silently skipping the interface. -/
theorem pc_three_neighbors_raises :
    pipeline
        [["h1", "h2", "h3", "h4"],
         ["Vlan1", "devA", "A", "Vlan9"],
         ["Vlan2", "devB", "B", "Vlan9"],
         ["Vlan3", "devC", "C", "Vlan9"]]
        [⟨"Po1", ["Vlan1", "Vlan2", "Vlan3"]⟩]
        [] = .error .nameError := by rfl

/-- C5: when an aggregate with three neighbors is processed after a
physical interface, the stale `new_desc` of the previous iteration is
compared and emitted, so "port-channel1" contributes command lines even
though no description was computed for it. -/
theorem pc_three_neighbors_stale_lines :
    pipeline
        [["h1", "h2", "h3", "h4"],
         ["Eth1", "devA", "A", "Eth9"],
         ["Eth2", "devB", "B", "Eth9"],
         ["Eth3", "devC", "C", "Eth9"]]
        [⟨"Po1", ["Eth1", "Eth2", "Eth3"]⟩]
        [] =
      .ok (["interface Ethernet1", " description A Eth9",
            "interface Ethernet2", " description B Eth9",
            "interface Ethernet3", " description C Eth9",
            "interface port-channel1", " description C Eth9"],
           ["interface Ethernet1", " no description",
            "interface Ethernet2", " no description",
            "interface Ethernet3", " no description",
            "interface port-channel1", " no description"]) := by rfl

/-- C7: the synthesizer visits interfaces in natural order — numeric
substrings compared numerically — so the keys Eth1/2, Eth1/10, Eth1/1
are processed (and emitted) as Eth1/1, Eth1/2, Eth1/10. -/
theorem natural_order_synthesis :
    natSort (dkeys [("Eth1/2", ["A", "Ethernet9"]),
                    ("Eth1/10", ["B", "Ethernet9"]),
                    ("Eth1/1", ["C", "Ethernet9"])]) =
        ["Eth1/1", "Eth1/2", "Eth1/10"] ∧
    genCommands [("Eth1/2", ["A", "Ethernet9"]),
                 ("Eth1/10", ["B", "Ethernet9"]),
                 ("Eth1/1", ["C", "Ethernet9"])] [] =
      .ok (["interface Eth1/1", " description C Eth9",
            "interface Eth1/2", " description A Eth9",
            "interface Eth1/10", " description B Eth9"],
           ["interface Eth1/1", " no description",
            "interface Eth1/2", " no description",
            "interface Eth1/10", " no description"]) := by
  constructor
  · decide
  · rfl

/-- C9 counterexample: a record missing required fields aborts with
IndexError — the code contains no InvalidRecordError and never raises
one. -/
theorem missing_field_index_error :
    extract_cdp_data [["h1", "h2", "h3", "h4"], ["mgmt0", "dev1"]] =
        .error .indexError ∧
    PyErr.indexError ≠ PyErr.invalidRecordError := by
  constructor
  · rfl
  · decide

theorem bind_ok_inv {α β : Type} (x : Except PyErr α) (f : α → Except PyErr β)
    (c : β) (h : (x >>= f) = .ok c) : ∃ b, x = .ok b ∧ f b = .ok c := by
  cases x with
  | ok a => exact ⟨a, rfl, h⟩
  | error e => exact Except.noConfusion h

theorem emit_cases (st : GenState) (i ex nd : String) :
    ((emit st i ex nd).cfg = st.cfg ∧ (emit st i ex nd).rb = st.rb) ∨
    ((emit st i ex nd).cfg = st.cfg ++ chgBlock ⟨i, nd, ex⟩ ∧
     (emit st i ex nd).rb = st.rb ++ rbBlock ⟨i, nd, ex⟩) := by
  unfold emit; split
  · right; exact ⟨rfl, rfl⟩
  · left; exact ⟨rfl, rfl⟩

theorem genStep_ok_cases (d : Dict) (exd : List (String × String)) (st : GenState)
    (i : String) (st' : GenState) (h : genStep d exd st i = .ok st') :
    (st'.cfg = st.cfg ∧ st'.rb = st.rb) ∨
    (∃ nd, st'.cfg = st.cfg ++ chgBlock ⟨i, nd, exLookup exd i⟩ ∧
           st'.rb = st.rb ++ rbBlock ⟨i, nd, exLookup exd i⟩) := by
  unfold genStep at h
  split at h
  · exact Except.noConfusion h
  · split at h
    · split at h
      · exact Except.noConfusion h
      · have hst : emit st i (exLookup exd i) _ = st' := Except.ok.inj h
        rcases emit_cases st i (exLookup exd i) _ with ⟨e1, e2⟩ | ⟨e1, e2⟩
        · left; rw [← hst]; exact ⟨e1, e2⟩
        · right; exact ⟨_, by rw [← hst]; exact e1, by rw [← hst]; exact e2⟩
    · split at h
      · exact Except.noConfusion h
      · exact Except.noConfusion h
      · have hst : emit st i (exLookup exd i) _ = st' := Except.ok.inj h
        rcases emit_cases st i (exLookup exd i) _ with ⟨e1, e2⟩ | ⟨e1, e2⟩
        · left; rw [← hst]; exact ⟨e1, e2⟩
        · right; exact ⟨_, by rw [← hst]; exact e1, by rw [← hst]; exact e2⟩

theorem foldl_plan (d : Dict) (exd : List (String × String)) :
    ∀ (keys : List String) (st st' : GenState),
      keys.foldlM (genStep d exd) st = .ok st' →
      ∃ plan : List PlanEntry,
        st'.cfg = st.cfg ++ blocksOf chgBlock plan ∧
        st'.rb = st.rb ++ blocksOf rbBlock plan ∧
        (plan.map PlanEntry.intf).Sublist keys ∧
        ∀ e ∈ plan, e.oldDesc = exLookup exd e.intf := by
  intro keys
  induction keys with
  | nil =>
    intro st st' h
    rw [List.foldlM_nil] at h
    obtain rfl : st = st' := Except.ok.inj h
    exact ⟨[], by simp [blocksOf], by simp [blocksOf], List.nil_sublist _, by simp⟩
  | cons k ks ih =>
    intro st st' h
    rw [List.foldlM_cons] at h
    obtain ⟨st1, h1, h2⟩ := bind_ok_inv _ _ _ h
    obtain ⟨plan1, hc, hr, hs, ho⟩ := ih st1 st' h2
    rcases genStep_ok_cases d exd st k st1 h1 with ⟨e1, e2⟩ | ⟨nd, e1, e2⟩
    · exact ⟨plan1, by rw [hc, e1], by rw [hr, e2], hs.cons k, ho⟩
    · refine ⟨⟨k, nd, exLookup exd k⟩ :: plan1, ?_, ?_, ?_, ?_⟩
      · rw [hc, e1, List.append_assoc]; rfl
      · rw [hr, e2, List.append_assoc]; rfl
      · simpa using hs.cons₂ k
      · intro e he
        rcases List.mem_cons.mp he with rfl | hmem
        · rfl
        · exact ho e hmem

theorem genCommands_plan (d : Dict) (exd : List (String × String))
    (cfg rb : List String) (h : genCommands d exd = .ok (cfg, rb)) :
    ∃ plan : List PlanEntry,
      cfg = blocksOf chgBlock plan ∧ rb = blocksOf rbBlock plan ∧
      (plan.map PlanEntry.intf).Sublist (natSort (dkeys d)) ∧
      ∀ e ∈ plan, e.oldDesc = exLookup exd e.intf := by
  unfold genCommands at h
  obtain ⟨st, h1, h2⟩ := bind_ok_inv _ _ _ h
  have hpair : (st.cfg, st.rb) = (cfg, rb) := Except.ok.inj h2
  obtain ⟨plan, hc, hr, hs, ho⟩ := foldl_plan d exd _ _ _ h1
  refine ⟨plan, ?_, ?_, hs, ho⟩
  · rw [← (Prod.mk.injEq _ _ _ _).mp hpair |>.1, hc]; rfl
  · rw [← (Prod.mk.injEq _ _ _ _).mp hpair |>.2, hr]; rfl

theorem blocksOf_length_two (f : PlanEntry → List String)
    (hf : ∀ e, (f e).length = 2) (plan : List PlanEntry) :
    (blocksOf f plan).length = 2 * plan.length := by
  induction plan with
  | nil => simp [blocksOf]
  | cons e p ih =>
    simp only [blocksOf, List.length_append, List.length_cons, hf, ih]
    omega

theorem blocksOf_get_even (f : PlanEntry → List String)
    (hf : ∀ e, ∃ x, f e = ["interface " ++ e.intf, x]) :
    ∀ (plan : List PlanEntry) (i : Nat),
      (blocksOf f plan).get? (2 * i) =
        (plan.get? i).map (fun e => "interface " ++ e.intf) := by
  intro plan
  induction plan with
  | nil => intro i; simp [blocksOf]
  | cons e p ih =>
    intro i
    obtain ⟨x, hx⟩ := hf e
    cases i with
    | zero => simp [blocksOf, hx]
    | succ j =>
      have h2 : 2 * (j + 1) = 2 * j + 1 + 1 := by omega
      simp only [blocksOf, hx, List.cons_append, List.nil_append, h2,
        List.get?_cons_succ, List.get?]
      exact ih j

/-- C4: ChangeSet and RollbackSet always have the same length, both are
concatenations of the two-line blocks of the same plan, and for every i
the 2i-th line of each is the same enter-interface line. -/
theorem changeset_rollback_aligned (d : Dict) (exd : List (String × String))
    (cfg rb : List String) (h : genCommands d exd = .ok (cfg, rb)) :
    cfg.length = rb.length ∧
    (∃ plan : List PlanEntry,
        cfg = blocksOf chgBlock plan ∧ rb = blocksOf rbBlock plan) ∧
    ∀ i : Nat, cfg.get? (2 * i) = rb.get? (2 * i) := by
  obtain ⟨plan, hc, hr, _, _⟩ := genCommands_plan d exd cfg rb h
  refine ⟨?_, ⟨plan, hc, hr⟩, ?_⟩
  · rw [hc, hr, blocksOf_length_two chgBlock (fun e => rfl) plan,
        blocksOf_length_two rbBlock (fun e => rfl) plan]
  · intro i
    rw [hc, hr, blocksOf_get_even chgBlock (fun e => ⟨_, rfl⟩) plan i,
        blocksOf_get_even rbBlock (fun e => ⟨_, rfl⟩) plan i]

/-- C4 witness: the alignment facts at a concrete run. -/
theorem changeset_rollback_aligned_witness :
    (["interface Ethernet5", " description SW2 Eth7"] : List String).length =
        (["interface Ethernet5", " no description"] : List String).length ∧
    (∃ plan : List PlanEntry,
        ["interface Ethernet5", " description SW2 Eth7"] = blocksOf chgBlock plan ∧
        ["interface Ethernet5", " no description"] = blocksOf rbBlock plan) ∧
    ∀ i : Nat,
      (["interface Ethernet5", " description SW2 Eth7"] : List String).get? (2 * i) =
        (["interface Ethernet5", " no description"] : List String).get? (2 * i) :=
  changeset_rollback_aligned [("Ethernet5", ["SW2", "Ethernet7"])] []
    ["interface Ethernet5", " description SW2 Eth7"]
    ["interface Ethernet5", " no description"] (by rfl)

theorem strData_append (a b : String) : (a ++ b).data = a.data ++ b.data := by
  cases a; cases b; rfl

theorem isPreOf_append (l m : List Char) : isPreOf l (l ++ m) = true := by
  induction l with
  | nil => rfl
  | cons a as ih => simp [isPreOf, ih]

theorem isPreOf_append_left (l m r : List Char) (h : l.length ≤ m.length) :
    isPreOf l (m ++ r) = isPreOf l m := by
  induction l generalizing m with
  | nil => simp [isPreOf]
  | cons a as ih =>
    cases m with
    | nil => simp at h
    | cons b bs =>
      simp only [List.cons_append, isPreOf, List.append_eq]
      rw [ih bs (Nat.succ_le_succ_iff.mp (by simpa using h))]

theorem matchPre_self_append (pre s : String) :
    matchPre pre (pre ++ s) = some s := by
  unfold matchPre
  rw [strData_append, isPreOf_append]
  simp [List.drop_left]

theorem matchPre_iface_of_desc (v : String) :
    matchPre "interface " (" description " ++ v) = none := by
  unfold matchPre
  rw [strData_append,
      isPreOf_append_left "interface ".data " description ".data v.data (by decide),
      show isPreOf "interface ".data " description ".data = false from by decide]
  simp

theorem desc_ne_nodesc (v : String) :
    (" description " ++ v) ≠ " no description" := by
  intro h
  have h1 : (" description " ++ v).data.get? 1 = (" no description").data.get? 1 := by
    rw [h]
  rw [strData_append] at h1
  have h2 : (" description ".data ++ v.data).get? 1 = some 'd' := rfl
  have h3 : (" no description").data.get? 1 = some 'n' := rfl
  rw [h2, h3] at h1
  exact absurd (Option.some.inj h1) (by decide)

theorem applyLine_iface (ctx : Option String) (tbl : String → String) (i : String) :
    applyLine ctx tbl ("interface " ++ i) = (some i, tbl) := by
  simp [applyLine, matchPre_self_append]

theorem applyLine_desc (i : String) (tbl : String → String) (v : String) :
    applyLine (some i) tbl (" description " ++ v) = (some i, setDesc tbl i v) := by
  unfold applyLine
  rw [matchPre_iface_of_desc]
  dsimp only
  rw [if_neg (desc_ne_nodesc v), matchPre_self_append]

theorem applyLine_nodesc (i : String) (tbl : String → String) :
    applyLine (some i) tbl " no description" = (some i, setDesc tbl i "") := by
  have hm : matchPre "interface " " no description" = none := by decide
  unfold applyLine
  rw [hm]
  dsimp only
  rw [if_pos rfl]

theorem applyAux_cons (ctx : Option String) (tbl : String → String)
    (l : String) (ls : List String) :
    applyCmdsAux ctx tbl (l :: ls) =
      applyCmdsAux (applyLine ctx tbl l).1 (applyLine ctx tbl l).2 ls := rfl

theorem apply_chgBlock (ctx : Option String) (tbl : String → String)
    (e : PlanEntry) (ls : List String) :
    applyCmdsAux ctx tbl (chgBlock e ++ ls) =
      applyCmdsAux (some e.intf) (setDesc tbl e.intf e.newDesc) ls := by
  simp only [chgBlock, List.cons_append, List.nil_append, applyAux_cons,
    applyLine_iface, applyLine_desc]

theorem apply_rbBlock (ctx : Option String) (tbl : String → String)
    (e : PlanEntry) (ls : List String) :
    applyCmdsAux ctx tbl (rbBlock e ++ ls) =
      applyCmdsAux (some e.intf) (setDesc tbl e.intf e.oldDesc) ls := by
  by_cases h0 : e.oldDesc = ""
  · rw [rbBlock, if_pos h0, h0]
    simp only [List.cons_append, List.nil_append, applyAux_cons,
      applyLine_iface, applyLine_nodesc]
  · rw [rbBlock, if_neg h0]
    simp only [List.cons_append, List.nil_append, applyAux_cons,
      applyLine_iface, applyLine_desc]

theorem apply_blocks_chg (plan : List PlanEntry) :
    ∀ (ctx : Option String) (tbl : String → String),
      applyCmdsAux ctx tbl (blocksOf chgBlock plan) = chgAll tbl plan := by
  induction plan with
  | nil => intro ctx tbl; rfl
  | cons e p ih =>
    intro ctx tbl
    rw [blocksOf, apply_chgBlock, chgAll, ih]

theorem apply_blocks_rb (plan : List PlanEntry) :
    ∀ (ctx : Option String) (tbl : String → String),
      applyCmdsAux ctx tbl (blocksOf rbBlock plan) = rbAll tbl plan := by
  induction plan with
  | nil => intro ctx tbl; rfl
  | cons e p ih =>
    intro ctx tbl
    rw [blocksOf, apply_rbBlock, rbAll, ih]

theorem setDesc_setDesc_ne (tbl : String → String) (i j u v : String) (h : i ≠ j) :
    setDesc (setDesc tbl i u) j v = setDesc (setDesc tbl j v) i u := by
  funext k
  unfold setDesc
  by_cases hkj : k = j
  · by_cases hki : k = i
    · exact absurd (hki.symm.trans hkj) h
    · simp [hkj, hki, Ne.symm h]
  · by_cases hki : k = i
    · simp [hkj, hki, h]
    · simp [hkj, hki]

theorem setDesc_setDesc_self (tbl : String → String) (i u v : String) :
    setDesc (setDesc tbl i u) i v = setDesc tbl i v := by
  funext k
  unfold setDesc
  by_cases hk : k = i <;> simp [hk]

theorem setDesc_self (tbl : String → String) (i : String) :
    setDesc tbl i (tbl i) = tbl := by
  funext k
  unfold setDesc
  by_cases hk : k = i <;> simp [hk]

theorem chgAll_setDesc_comm (plan : List PlanEntry) (i v : String)
    (h : i ∉ plan.map PlanEntry.intf) :
    ∀ tbl : String → String,
      chgAll (setDesc tbl i v) plan = setDesc (chgAll tbl plan) i v := by
  induction plan with
  | nil => intro tbl; rfl
  | cons e p ih =>
    intro tbl
    have hne : i ≠ e.intf := fun he => h (by simp [he])
    have hp : i ∉ p.map PlanEntry.intf := fun hm => h (by simp [hm])
    rw [chgAll, chgAll, setDesc_setDesc_ne tbl i e.intf v e.newDesc hne, ih hp]

theorem rollback_restores (plan : List PlanEntry) :
    ∀ tbl : String → String,
      (plan.map PlanEntry.intf).Nodup →
      (∀ e ∈ plan, e.oldDesc = tbl e.intf) →
      rbAll (chgAll tbl plan) plan = tbl := by
  induction plan with
  | nil => intro tbl _ _; rfl
  | cons e p ih =>
    intro tbl hnd hold
    rw [List.map_cons, List.nodup_cons] at hnd
    have hni : e.intf ∉ p.map PlanEntry.intf := hnd.1
    have hndp : (p.map PlanEntry.intf).Nodup := hnd.2
    rw [chgAll, rbAll, chgAll_setDesc_comm p e.intf e.newDesc hni tbl,
        setDesc_setDesc_self, ← chgAll_setDesc_comm p e.intf e.oldDesc hni tbl,
        hold e (List.mem_cons_self e p), setDesc_self]
    exact ih tbl hndp (fun e' he' => hold e' (List.mem_cons_of_mem e he'))

theorem insertNat_perm (l : List String) (x : String) :
    List.Perm (insertNat l x) (x :: l) := by
  induction l with
  | nil => exact List.Perm.refl _
  | cons y ys ih =>
    simp only [insertNat]
    split
    · exact ((ih.cons y).trans (List.Perm.swap x y ys))
    · exact List.Perm.refl _

theorem foldl_insertNat_perm (l : List String) :
    ∀ acc : List String, List.Perm (List.foldl insertNat acc l) (acc ++ l) := by
  induction l with
  | nil => intro acc; simp
  | cons x xs ih =>
    intro acc
    have h1 : List.Perm (List.foldl insertNat (insertNat acc x) xs)
        (insertNat acc x ++ xs) := ih (insertNat acc x)
    have h2 : List.Perm (insertNat acc x ++ xs) ((x :: acc) ++ xs) :=
      (insertNat_perm acc x).append_right xs
    have h3 : List.Perm ((x :: acc) ++ xs) (acc ++ (x :: xs)) := by
      simpa using (@List.perm_middle _ x acc xs).symm
    exact ((h1.trans h2).trans h3)

theorem natSort_perm (l : List String) : List.Perm (natSort l) l := by
  simpa using foldl_insertNat_perm l []

theorem natSort_nodup (l : List String) (h : l.Nodup) : (natSort l).Nodup :=
  ((natSort_perm l).nodup_iff).mpr h

/-- C3: applying the generated ChangeSet to the existing-description
table and then the generated RollbackSet restores the table exactly, and
every rollback pair ends in " no description" exactly when the existing
description was empty and in " description {existing}" otherwise
(visible in `rbBlock`). -/
theorem rollback_correct (d : Dict) (exd : List (String × String))
    (cfg rb : List String) (hnd : (dkeys d).Nodup)
    (h : genCommands d exd = .ok (cfg, rb)) :
    applyCmds (applyCmds (exLookup exd) cfg) rb = exLookup exd ∧
    ∃ plan : List PlanEntry, rb = blocksOf rbBlock plan ∧
      ∀ e ∈ plan, e.oldDesc = exLookup exd e.intf := by
  obtain ⟨plan, hc, hr, hs, ho⟩ := genCommands_plan d exd cfg rb h
  refine ⟨?_, plan, hr, ho⟩
  rw [hc, hr]
  unfold applyCmds
  rw [apply_blocks_chg plan none (exLookup exd),
      apply_blocks_rb plan none (chgAll (exLookup exd) plan)]
  exact rollback_restores plan (exLookup exd)
    (List.Nodup.sublist hs (natSort_nodup (dkeys d) hnd)) ho

/-- C3 witness: rollback correctness at a concrete run. -/
theorem rollback_correct_witness :
    applyCmds (applyCmds (exLookup [("Ethernet1", "old")])
        ["interface Ethernet1", " description SW1 Eth2"])
        ["interface Ethernet1", " description old"] =
      exLookup [("Ethernet1", "old")] ∧
    ∃ plan : List PlanEntry,
      ["interface Ethernet1", " description old"] = blocksOf rbBlock plan ∧
      ∀ e ∈ plan, e.oldDesc = exLookup [("Ethernet1", "old")] e.intf :=
  rollback_correct [("Ethernet1", ["SW1", "Ethernet2"])] [("Ethernet1", "old")]
    ["interface Ethernet1", " description SW1 Eth2"]
    ["interface Ethernet1", " description old"] (by decide) (by rfl)

theorem ok_bind {α β : Type} (a : α) (f : α → Except PyErr β) :
    (Except.ok a >>= f) = f a := rfl

theorem collect_go (d : Dict) :
    ∀ (members acc ns : List String),
      members.foldlM (collectStep d) acc = .ok ns →
      (∀ s, s ∈ ns ↔ (s ∈ acc ∨ ∃ m ∈ members, ∃ v,
          dlookup d (long_int_name m) = some v ∧ v.head? = some s)) ∧
      (acc.Nodup → ns.Nodup) := by
  intro members
  induction members with
  | nil =>
    intro acc ns h
    rw [List.foldlM_nil] at h
    obtain rfl : acc = ns := Except.ok.inj h
    exact ⟨fun s => by simp, id⟩
  | cons m ms ih =>
    intro acc ns h
    rw [List.foldlM_cons] at h
    obtain ⟨acc1, h1, h2⟩ := bind_ok_inv _ _ _ h
    cases hl : dlookup d (long_int_name m) with
    | none =>
      rw [collectStep, hl] at h1
      obtain rfl : acc = acc1 := Except.ok.inj h1
      obtain ⟨hmem, hnd⟩ := ih acc ns h2
      refine ⟨fun s => ?_, hnd⟩
      rw [hmem s]
      simp [List.exists_mem_cons_iff, hl]
    | some v0 =>
      cases v0 with
      | nil =>
        rw [collectStep, hl] at h1
        exact Except.noConfusion h1
      | cons s0 rest =>
        rw [collectStep, hl] at h1
        obtain hacc1 : (if s0 ∈ acc then acc else acc ++ [s0]) = acc1 :=
          Except.ok.inj h1
        obtain ⟨hmem, hnd⟩ := ih acc1 ns h2
        constructor
        · intro s
          rw [hmem s]
          have hM : (∃ v, dlookup d (long_int_name m) = some v ∧
              v.head? = some s) ↔ s = s0 := by
            simp [hl, eq_comm]
          have hacc : s ∈ acc1 ↔ (s ∈ acc ∨ s = s0) := by
            rw [← hacc1]
            by_cases hs0 : s0 ∈ acc
            · rw [if_pos hs0]
              exact ⟨Or.inl, fun hor => hor.elim id (fun he => he ▸ hs0)⟩
            · rw [if_neg hs0]
              simp
          rw [hacc]
          simp only [List.exists_mem_cons_iff, hM]
          tauto
        · intro hna
          refine hnd ?_
          rw [← hacc1]
          by_cases hs0 : s0 ∈ acc
          · rw [if_pos hs0]; exact hna
          · rw [if_neg hs0]
            simp [List.nodup_append, hna, hs0]

theorem addPcStep_core (d : Dict) (e : PcRecord) (d' : Dict)
    (h : addPcStep d e = .ok d') :
    ∃ ns : List String,
      collectNeighbors d e.members = .ok ns ∧
      (∀ s, s ∈ ns ↔ ∃ m ∈ e.members, ∃ v,
          dlookup d (long_int_name m) = some v ∧ v.head? = some s) ∧
      ns.Nodup ∧
      (ns ≠ [] → d' = dinsert d (long_int_name e.po) ns) ∧
      (ns = [] → d' = d) := by
  unfold addPcStep at h
  obtain ⟨ns, h1, h2⟩ := bind_ok_inv _ _ _ h
  have hd' : (if ns.length > 0 then dinsert d (long_int_name e.po) ns else d) = d' :=
    Except.ok.inj h2
  obtain ⟨hmem, hnd⟩ := collect_go d e.members [] ns h1
  refine ⟨ns, h1, fun s => by simpa using hmem s, hnd List.nodup_nil, ?_, ?_⟩
  · intro hne
    rw [← hd', if_pos (by simpa [List.length_pos] using hne)]
  · intro hnil
    rw [← hd', if_neg (by simp [hnil])]

/-- C8: for one port-channel record, `addPcStep` collects exactly the
distinct system names of the members' map entries (members absent from
the map ignored), and writes the port-channel entry iff that collection
is non-empty, leaving the map unchanged otherwise. -/
theorem addPcStep_spec (d : Dict) (e : PcRecord) (d' : Dict)
    (h : addPcStep d e = .ok d') :
    ∃ ns : List String,
      collectNeighbors d e.members = .ok ns ∧
      (∀ s, s ∈ ns ↔ ∃ m ∈ e.members, ∃ v,
          dlookup d (long_int_name m) = some v ∧ v.head? = some s) ∧
      ns.Nodup ∧
      (ns ≠ [] → d' = dinsert d (long_int_name e.po) ns) ∧
      (ns = [] → d' = d) :=
  addPcStep_core d e d' h

/-- C8 witness: merging one concrete port-channel record. -/
theorem addPcStep_spec_witness :
    ∃ ns : List String,
      collectNeighbors [("Ethernet1", ["SW1", "Ethernet3"])] ["Eth1"] = .ok ns ∧
      (∀ s, s ∈ ns ↔ ∃ m ∈ ["Eth1"], ∃ v,
          dlookup [("Ethernet1", ["SW1", "Ethernet3"])] (long_int_name m) = some v ∧
          v.head? = some s) ∧
      ns.Nodup ∧
      (ns ≠ [] →
        [("Ethernet1", ["SW1", "Ethernet3"]), ("port-channel1", ["SW1"])] =
          dinsert [("Ethernet1", ["SW1", "Ethernet3"])] (long_int_name "Po1") ns) ∧
      (ns = [] →
        [("Ethernet1", ["SW1", "Ethernet3"]), ("port-channel1", ["SW1"])] =
          [("Ethernet1", ["SW1", "Ethernet3"])]) :=
  addPcStep_spec [("Ethernet1", ["SW1", "Ethernet3"])] ⟨"Po1", ["Eth1"]⟩
    [("Ethernet1", ["SW1", "Ethernet3"]), ("port-channel1", ["SW1"])] (by rfl)

theorem dlookup_dinsert_self {α : Type} (d : List (String × α)) (k : String) (v : α) :
    dlookup (dinsert d k v) k = some v := by
  induction d with
  | nil => simp [dinsert, dlookup]
  | cons p rest ih =>
    obtain ⟨k0, v0⟩ := p
    by_cases hk : k0 = k
    · simp [dinsert, hk, dlookup]
    · simp [dinsert, hk, dlookup, ih]

theorem dlookup_dinsert_ne {α : Type} (d : List (String × α)) (k k' : String)
    (v : α) (h : k' ≠ k) :
    dlookup (dinsert d k v) k' = dlookup d k' := by
  induction d with
  | nil => simp [dinsert, dlookup, Ne.symm h]
  | cons p rest ih =>
    obtain ⟨k0, v0⟩ := p
    by_cases hk : k0 = k
    · subst hk
      simp [dinsert, dlookup, Ne.symm h]
    · simp [dinsert, hk, dlookup, ih]

theorem addPcStep_frame (d : Dict) (e : PcRecord) (d' : Dict)
    (h : addPcStep d e = .ok d') :
    (∀ k, (dlookup d k).isSome → (dlookup d' k).isSome) ∧
    (∀ k, k ≠ long_int_name e.po → dlookup d' k = dlookup d k) ∧
    (∀ k v, dlookup d' k = some v → dlookup d k = some v ∨ v ≠ []) := by
  obtain ⟨ns, _, _, _, hcons, hnil⟩ := addPcStep_core d e d' h
  by_cases hns : ns = []
  · rw [hnil hns]
    exact ⟨fun k hk => hk, fun k _ => rfl, fun k v hv => Or.inl hv⟩
  · rw [hcons hns]
    refine ⟨?_, ?_, ?_⟩
    · intro k hk
      by_cases hkp : k = long_int_name e.po
      · rw [hkp, dlookup_dinsert_self]; rfl
      · rw [dlookup_dinsert_ne _ _ _ _ hkp]; exact hk
    · intro k hk
      exact dlookup_dinsert_ne _ _ _ _ hk
    · intro k v hv
      by_cases hkp : k = long_int_name e.po
      · rw [hkp, dlookup_dinsert_self] at hv
        exact Or.inr ((Option.some.inj hv) ▸ hns)
      · rw [dlookup_dinsert_ne _ _ _ _ hkp] at hv
        exact Or.inl hv

/-- C10: `add_port_channels` never removes a key; every key that is not
a canonical port-channel name of the records keeps its exact binding;
and every binding it changes holds a non-empty neighbor list. -/
theorem add_port_channels_frame (pc_data : List PcRecord) :
    ∀ (d d' : Dict), add_port_channels d pc_data = .ok d' →
      (∀ k, (dlookup d k).isSome → (dlookup d' k).isSome) ∧
      (∀ k, k ∉ pc_data.map (fun e => long_int_name e.po) →
          dlookup d' k = dlookup d k) ∧
      (∀ k v, dlookup d' k = some v → dlookup d k = some v ∨ v ≠ []) := by
  induction pc_data with
  | nil =>
    intro d d' h
    unfold add_port_channels at h
    rw [List.foldlM_nil] at h
    obtain rfl : d = d' := Except.ok.inj h
    exact ⟨fun k hk => hk, fun _ _ => rfl, fun k v hv => Or.inl hv⟩
  | cons e pcs ih =>
    intro d d' h
    unfold add_port_channels at h
    rw [List.foldlM_cons] at h
    obtain ⟨d1, h1, h2⟩ := bind_ok_inv _ _ _ h
    obtain ⟨p1, p2, p3⟩ := addPcStep_frame d e d1 h1
    obtain ⟨q1, q2, q3⟩ := ih d1 d' h2
    refine ⟨fun k hk => q1 k (p1 k hk), ?_, ?_⟩
    · intro k hk
      rw [List.map_cons] at hk
      have hk1 : k ≠ long_int_name e.po := fun hh => hk (by simp [hh])
      have hk2 : k ∉ pcs.map (fun e => long_int_name e.po) :=
        fun hh => hk (List.mem_cons_of_mem _ hh)
      rw [q2 k hk2, p2 k hk1]
    · intro k v hv
      rcases q3 k v hv with hq | hne
      · rcases p3 k v hq with hp | hne
        · exact Or.inl hp
        · exact Or.inr hne
      · exact Or.inr hne

/-- C10 witness: the frame facts at a concrete merge. -/
theorem add_port_channels_frame_witness :
    (∀ k, (dlookup [("Ethernet2", ["SW9", "Ethernet4"])] k).isSome →
        (dlookup [("Ethernet2", ["SW9", "Ethernet4"]),
                  ("port-channel2", ["SW9"])] k).isSome) ∧
    (∀ k, k ∉ [⟨"Po2", ["Eth2"]⟩].map (fun (e : PcRecord) => long_int_name e.po) →
        dlookup [("Ethernet2", ["SW9", "Ethernet4"]),
                 ("port-channel2", ["SW9"])] k =
          dlookup [("Ethernet2", ["SW9", "Ethernet4"])] k) ∧
    (∀ k v, dlookup [("Ethernet2", ["SW9", "Ethernet4"]),
                     ("port-channel2", ["SW9"])] k = some v →
        dlookup [("Ethernet2", ["SW9", "Ethernet4"])] k = some v ∨ v ≠ []) :=
  add_port_channels_frame [⟨"Po2", ["Eth2"]⟩]
    [("Ethernet2", ["SW9", "Ethernet4"])]
    [("Ethernet2", ["SW9", "Ethernet4"]), ("port-channel2", ["SW9"])] (by rfl)

theorem cdpStep_short (st : CdpState) (row : List String) (h : row.length < 4) :
    cdpStep st row = .error .indexError := by
  rcases row with _ | ⟨a, _ | ⟨b, _ | ⟨c, _ | ⟨e, rest⟩⟩⟩⟩
  · rfl
  · rfl
  · rfl
  · rfl
  · exact absurd h (by simp)

theorem exists_ok {α : Type} (x : α) :
    ∃ y : α, (Except.ok x : Except PyErr α) = .ok y := ⟨x, rfl⟩

theorem cdpStep_cons4 (st : CdpState) (a b c e : String) (rest : List String) :
    cdpStep st (a :: b :: c :: e :: rest) =
      (if long_int_name a ∈ st.found_intfs then
        Except.ok ⟨dpop st.cdp_data (if c = "" then extract_system_name b [] else c),
                   st.found_intfs⟩
      else
        Except.ok ⟨dinsert st.cdp_data (long_int_name a)
            [if c = "" then extract_system_name b [] else c, long_int_name e],
          long_int_name a :: st.found_intfs⟩) := rfl

theorem cdpStep_full_ok (st : CdpState) (row : List String) (h : 4 ≤ row.length) :
    ∃ st', cdpStep st row = .ok st' := by
  rcases row with _ | ⟨a, _ | ⟨b, _ | ⟨c, _ | ⟨e, rest⟩⟩⟩⟩
  · exact absurd h (by simp)
  · exact absurd h (by simp)
  · exact absurd h (by simp)
  · exact absurd h (by simp)
  · rw [cdpStep_cons4]
    split
    · exact exists_ok _
    · exact exists_ok _

theorem cdp_rows_ok (rows : List (List String)) :
    ∀ st : CdpState, (∀ row ∈ rows, 4 ≤ row.length) →
      ∃ st', rows.foldlM cdpStep st = .ok st' := by
  induction rows with
  | nil =>
    intro st _
    exact ⟨st, by rw [List.foldlM_nil]; rfl⟩
  | cons r rs ih =>
    intro st h
    obtain ⟨st1, hs⟩ := cdpStep_full_ok st r (h r (List.mem_cons_self r rs))
    obtain ⟨st', hs'⟩ := ih st1 (fun row hm => h row (List.mem_cons_of_mem r hm))
    exact ⟨st', by rw [List.foldlM_cons, hs, ok_bind, hs']⟩

theorem cdp_rows_short_err (rows : List (List String)) :
    ∀ st : CdpState, (∃ row ∈ rows, row.length < 4) →
      rows.foldlM cdpStep st = .error .indexError := by
  induction rows with
  | nil =>
    rintro st ⟨row, hmem, _⟩
    exact absurd hmem (List.not_mem_nil row)
  | cons r rs ih =>
    rintro st ⟨row, hmem, hlen⟩
    by_cases hr : r.length < 4
    · rw [List.foldlM_cons, cdpStep_short st r hr]
      rfl
    · obtain ⟨st1, hs⟩ := cdpStep_full_ok st r (Nat.le_of_not_lt hr)
      rw [List.foldlM_cons, hs, ok_bind]
      rcases List.mem_cons.mp hmem with rfl | hmem'
      · exact absurd hlen hr
      · exact ih st1 ⟨row, hmem', hlen⟩

/-- C9 (amended): a raw record with fewer than the four required fields
makes the reconciliation abort with an IndexError — not the spec's
InvalidRecordError, which the code never defines — and the abort happens
inside `extract_cdp_data`, before any command is generated, so no
partial plan is emitted; when every record carries all four fields, no
such error is raised. -/
theorem missing_field_aborts (cdp_table : List (List String)) :
    ((∃ row ∈ cdp_table.drop 1, row.length < 4) →
        extract_cdp_data cdp_table = .error .indexError) ∧
    ((∀ row ∈ cdp_table.drop 1, 4 ≤ row.length) →
        ∃ m, extract_cdp_data cdp_table = .ok m) ∧
    (∀ (err : PyErr) (pc_data : List PcRecord) (exd : List (String × String)),
        extract_cdp_data cdp_table = .error err →
        pipeline cdp_table pc_data exd = .error err) := by
  refine ⟨?_, ?_, ?_⟩
  · intro h
    unfold extract_cdp_data
    rw [cdp_rows_short_err (cdp_table.drop 1) ⟨[], []⟩ h]
    rfl
  · intro h
    obtain ⟨st', hs⟩ := cdp_rows_ok (cdp_table.drop 1) ⟨[], []⟩ h
    exact ⟨st'.cdp_data, by unfold extract_cdp_data; rw [hs, ok_bind]; rfl⟩
  · intro err pc_data exd he
    unfold pipeline
    rw [he]
    rfl

/-- C9 amended-claim witness: a two-field record aborts the extraction
with IndexError. -/
theorem missing_field_aborts_witness :
    extract_cdp_data [["h1", "h2", "h3", "h4"], ["mgmt0", "devX"]] =
      .error .indexError :=
  (missing_field_aborts [["h1", "h2", "h3", "h4"], ["mgmt0", "devX"]]).1
    ⟨["mgmt0", "devX"], by simp, by simp⟩
